import Mathlib

/-!
# Verification of the `hardboiled` static-site generator

Shallow embedding of `src/hardboiled/builder.py`, `src/hardboiled/config.py`
and `src/hardboiled/utils.py`.

The filesystem is modelled as an association list from paths (lists of path
components, relative to an implicit root) to nodes (files with string content,
or directories).  Later bindings shadow earlier ones, so overwriting a file is
a `cons`.  `pathlib` path arithmetic (`/`), `mkdir(parents=True,
exist_ok=True)`, `Path.write_text`, `shutil.copy2`, `shutil.copytree`,
`shutil.rmtree` and `Path.match` are each given explicit models below, read
off the Python semantics.  The Jinja2 environment is an opaque function from
template name and context to either a rendered string or an error, matching
its use in `builder.py` (`get_template` + `render` happen before any
filesystem effect).  Machine-level details that the code never relies on
(symbolic links, permissions, `..` resolution by the OS) are not modelled.
-/

namespace Hardboiled

/-- A filesystem path, as a list of components below an implicit root. -/
abbrev FPath := List String

/-- A filesystem node: a regular file with its text content, or a directory. -/
inductive Node where
  | file (content : String)
  | dir
deriving DecidableEq

/-- The filesystem: an association list from paths to nodes.  Earlier entries
shadow later ones, so an update is a `cons`. -/
abbrev FS := List (FPath × Node)

/-- Look up the node at a path.  The implicit root `[]` always exists and is a
directory. -/
def FS.lookup (fs : FS) (p : FPath) : Option Node :=
  if p = [] then some Node.dir else (fs.find? (fun e => e.1 = p)).map (·.2)

/-- `Path.exists()`: the path is bound to some node (the root always exists). -/
def FS.pexists (fs : FS) (p : FPath) : Bool :=
  (FS.lookup fs p).isSome

/-- `Path.is_dir()`: the path is bound to a directory node. -/
def FS.isDir (fs : FS) (p : FPath) : Bool :=
  FS.lookup fs p = some Node.dir

/-- The file content at a path, if the path is a regular file. -/
def FS.fileAt (fs : FS) (p : FPath) : Option String :=
  match FS.lookup fs p with
  | some (Node.file c) => some c
  | _ => none

/-- Bind a path to a node, shadowing any previous binding. -/
def FS.setNode (p : FPath) (n : Node) (fs : FS) : FS :=
  (p, n) :: fs

/-- Errors raised by the modelled filesystem and rendering operations,
mirroring the Python exceptions that `builder.py` lets propagate. -/
inductive Err where
  | fileExists (p : FPath)
  | isADirectory (p : FPath)
  | missingParent (p : FPath)
  | destExists (p : FPath)
  | missingSrc (p : FPath)
  | render (msg : String)
deriving DecidableEq

/-- `str.startswith`, modelled on the character-list view of strings. -/
def strStarts (s pre : String) : Bool :=
  pre.data.isPrefixOf s.data

/-- Split a character list at every `/` (the pieces of `str.split("/")`). -/
def splitSlash (cur : List Char) : List Char → List String
  | [] => [String.mk cur.reverse]
  | c :: cs =>
    if c = '/' then String.mk cur.reverse :: splitSlash [] cs
    else splitSlash (c :: cur) cs

/-- Split a string into path components the way `pathlib`'s `/` operator
does for relative operands: split on `/`, dropping empty components and
single-dot components.  (Absolute operands are handled in `joinPath`.) -/
def splitPath (s : String) : FPath :=
  (splitSlash [] s.data).filter (fun c => c ≠ "" && c ≠ ".")

/-- `pathlib`'s `base / s`: appends the components of `s`, except that an
absolute `s` (leading `/`) replaces `base` entirely. -/
def joinPath (base : FPath) (s : String) : FPath :=
  if strStarts s "/" then splitPath s else base ++ splitPath s

/-- The non-empty prefixes of a path, shortest first: the chain of
directories that `mkdir(parents=True)` walks. -/
def prefixChain (p : FPath) : List FPath :=
  (List.range p.length).map (fun i => p.take (i + 1))

/-- One step of `mkdir(parents=True, exist_ok=True)`: walk the prefix chain,
skipping existing directories, creating missing ones, and failing on a
regular file in the chain (Python raises `FileExistsError` /
`NotADirectoryError` there). -/
def mkdirGo : List FPath → FS → FS × Option Err
  | [], fs => (fs, none)
  | q :: qs, fs =>
    match FS.lookup fs q with
    | some (Node.file _) => (fs, some (Err.fileExists q))
    | some Node.dir => mkdirGo qs fs
    | none => mkdirGo qs ((q, Node.dir) :: fs)

/-- `p.mkdir(parents=True, exist_ok=True)`. -/
def mkdirParents (p : FPath) (fs : FS) : FS × Option Err :=
  mkdirGo (prefixChain p) fs

/-- `Path.write_text`: fails on a directory target or a missing parent
directory, otherwise binds the path to a file with the given content
(truncating any previous content). -/
def writeText (p : FPath) (c : String) (fs : FS) : FS × Option Err :=
  if FS.lookup fs p = some Node.dir then (fs, some (Err.isADirectory p))
  else if p = [] ∨ FS.lookup fs p.dropLast = some Node.dir then
    (FS.setNode p (Node.file c) fs, none)
  else (fs, some (Err.missingParent p))

/-! ## Config (`src/hardboiled/config.py`) -/

/-- The process environment, as consulted by `os.environ.get`. -/
abbrev EnvMap := String → Option String

namespace Config

/-- `Config.get`: direct passthrough lookup with an optional default. -/
def get (env : EnvMap) (key : String) (default : Option String) : Option String :=
  match env key with
  | some v => some v
  | none => default

/-- The message of the `KeyError` raised by `Config.require`. -/
def requireMsg (key : String) : String :=
  "Required environment variable '" ++ key ++ "' is not set"

/-- `Config.require`: the environment value, or a `KeyError` naming the
missing key. -/
def require (env : EnvMap) (key : String) : Except String String :=
  match env key with
  | none => Except.error (requireMsg key)
  | some v => Except.ok v

/-- `str.isupper`: at least one cased character, and every cased character
is uppercase.  Attribute names are ASCII identifiers, so cased means an
ASCII letter. -/
def pyIsUpper (s : String) : Bool :=
  s.data.any (fun c => c.isUpper || c.isLower) &&
    s.data.all (fun c => !(c.isUpper || c.isLower) || c.isUpper)

/-- `Config.to_dict`: the instance's attribute table (the result of `dir` /
`getattr`, modelled as an association list of names and values) filtered to
names that satisfy `isupper()` and do not start with an underscore. -/
def to_dict {V : Type} (attrs : List (String × V)) : List (String × V) :=
  attrs.filter (fun kv => pyIsUpper kv.1 && !(strStarts kv.1 "_"))

end Config

/-! ## The builder (`src/hardboiled/builder.py`) -/

/-- `SiteBuilder`, after `__init__` has resolved `template_dir`, `static_dir`
and `build_dir` against `base_path` (each is `base_path / arg`, i.e.
`joinPath`).  `env` is the Jinja2 environment, opaque here: given a template
name and a context it yields either the rendered text or the propagated
engine error (`get_template` failure or rendering failure); both happen
before any filesystem effect in `render_template`. -/
structure SiteBuilder (Ctx : Type) where
  template_dir : FPath
  static_dir : FPath
  build_dir : FPath
  env : String → Ctx → Except Err String

/-- The body of the `for subdir in subdirs` loop of
`SiteBuilder.ensure_build_dirs`: each subdirectory is created with
`(self.build_dir / subdir).mkdir(parents=True, exist_ok=True)`, stopping at
the first error (which propagates). -/
def ensureGo (base : FPath) : List String → FS → FS × Option Err
  | [], fs => (fs, none)
  | sd :: sds, fs =>
    match mkdirParents (base ++ splitPath sd) fs with
    | (fs', some e) => (fs', some e)
    | (fs', none) => ensureGo base sds fs'

/-- `SiteBuilder.ensure_build_dirs`: create the build directory, then each
listed subdirectory below it.  A `None` / empty `subdirs` argument skips the
loop, which coincides with folding over the empty list. -/
def ensure_build_dirs {Ctx : Type} (b : SiteBuilder Ctx) (fs : FS)
    (subdirs : List String) : FS × Option Err :=
  match mkdirParents b.build_dir fs with
  | (fs', some e) => (fs', some e)
  | (fs', none) => ensureGo b.build_dir subdirs fs'

/-- The Python expression `output_name or template_name` in
`SiteBuilder.render_template`: a missing (`None`) or falsy (empty string)
output name falls back to the template name. -/
def effectiveOutput (template_name : String) : Option String → String
  | none => template_name
  | some s => if s = "" then template_name else s

/-- The path `self.build_dir / output_name` that `render_template` writes. -/
def outPath {Ctx : Type} (b : SiteBuilder Ctx) (t : String) (out : Option String) : FPath :=
  joinPath b.build_dir (effectiveOutput t out)

/-- `SiteBuilder.render_template`: render the named template against the
context (engine call, no filesystem effect), create the output path's parent
directory, write the rendered text, and return it.  Errors propagate, leaving
whatever state existed at the point of failure. -/
def render_template {Ctx : Type} (b : SiteBuilder Ctx) (fs : FS) (template_name : String)
    (context : Ctx) (output_name : Option String) : FS × Except Err String :=
  match b.env template_name context with
  | Except.error e => (fs, Except.error e)
  | Except.ok html =>
    let output_path := joinPath b.build_dir (effectiveOutput template_name output_name)
    match mkdirParents output_path.dropLast fs with
    | (fs1, some e) => (fs1, Except.error e)
    | (fs1, none) =>
      match writeText output_path html fs1 with
      | (fs2, some e) => (fs2, Except.error e)
      | (fs2, none) => (fs2, Except.ok html)

/-- One entry of the `pages` argument of `SiteBuilder.render_pages`: a bare
template name, or a `(template, output)` tuple. -/
inductive PageSpec where
  | name (s : String)
  | pair (template output : String)
deriving DecidableEq

/-- The template name `render_pages` extracts from a page entry. -/
def pageTemplate : PageSpec → String
  | PageSpec.name s => s
  | PageSpec.pair t _ => t

/-- The output name `render_pages` extracts from a page entry (for a bare
name, the name itself). -/
def pageOutput : PageSpec → String
  | PageSpec.name s => s
  | PageSpec.pair _ o => o

/-- `SiteBuilder.render_pages`: render each page in order with the shared
context, stopping at (and propagating) the first error. -/
def render_pages {Ctx : Type} (b : SiteBuilder Ctx) : FS → List PageSpec → Ctx → FS × Except Err Unit
  | fs, [], _ => (fs, Except.ok ())
  | fs, p :: rest, ctx =>
    match render_template b fs (pageTemplate p) ctx (some (pageOutput p)) with
    | (fs', Except.error e) => (fs', Except.error e)
    | (fs', Except.ok _) => render_pages b fs' rest ctx

/-! ## Glob matching (`fnmatch` / `PurePath.match`) -/

/-- Fuel-bounded matcher behind `fnmatchChars`.  Each step consumes at least
one character of the pattern or of the string, so any fuel of at least
`pattern length + string length` computes the match (structural recursion on
the fuel keeps the definition kernel-reducible). -/
def fnmatchGo : Nat → List Char → List Char → Bool
  | _, [], [] => true
  | fuel + 1, '*' :: ps, [] => fnmatchGo fuel ps []
  | fuel + 1, '*' :: ps, c :: cs =>
    fnmatchGo fuel ps (c :: cs) || fnmatchGo fuel ('*' :: ps) cs
  | fuel + 1, '?' :: ps, _ :: cs => fnmatchGo fuel ps cs
  | fuel + 1, p :: ps, c :: cs => (p = c) && fnmatchGo fuel ps cs
  | _, _, _ => false

/-- `fnmatch` over one path component, case-sensitively: `*` matches any
(possibly empty) character sequence, `?` any single character, every other
pattern character only itself.  (Bracket character classes, which no caller
of `copy_static_assets` uses, are treated as literal characters.) -/
def fnmatchChars (ps cs : List Char) : Bool :=
  fnmatchGo (ps.length + cs.length) ps cs

/-- `PurePath.match` for a relative pattern: split the pattern on `/` and
match its components against the trailing components of the path, right to
left.  An empty pattern (a `ValueError` in Python) matches nothing. -/
def pathMatch (path : FPath) (pat : String) : Bool :=
  !(splitPath pat).isEmpty && (splitPath pat).length ≤ path.length &&
    ((splitPath pat).reverse.zip path.reverse).all
      (fun pr => fnmatchChars pr.1.data pr.2.data)

/-! ## Static asset copying (`shutil`) -/

/-- `shutil.rmtree`: drop every binding at or below `dest`. -/
def rmtree (dest : FPath) (fs : FS) : FS :=
  fs.filter (fun e => !(dest.isPrefixOf e.1))

/-- `shutil.copytree` onto a non-existing destination: every binding at or
below `src` reappears at the corresponding path below `dest`.  An existing
destination is a `FileExistsError` (the caller removes it first). -/
def copytree (src dest : FPath) (fs : FS) : FS × Option Err :=
  if FS.pexists fs dest then (fs, some (Err.destExists dest))
  else
    ((fs.filterMap fun e =>
        if src.isPrefixOf e.1 then some (dest ++ e.1.drop src.length, e.2) else none) ++ fs,
      none)

/-- `shutil.copy2` for a regular source file: copy the content to `dest`,
overwriting an existing file; if `dest` is a directory the copy lands inside
it under the source's base name (and a directory there is an error). -/
def copy2 (src dest : FPath) (fs : FS) : FS × Option Err :=
  match FS.lookup fs src with
  | some (Node.file c) =>
    let target := if FS.isDir fs dest then dest ++ [src.getLastD ""] else dest
    match FS.lookup fs target with
    | some Node.dir => (fs, some (Err.isADirectory target))
    | _ => (FS.setNode target (Node.file c) fs, none)
  | _ => (fs, some (Err.missingSrc src))

/-- The names of the direct children of `p`: what `p.iterdir()` yields. -/
def childNames (fs : FS) (p : FPath) : List String :=
  fs.filterMap fun e =>
    if p.isPrefixOf e.1 && e.1.length == p.length + 1 then e.1.getLast? else none

/-- The body of the `for item in self.static_dir.iterdir()` loop of
`SiteBuilder.copy_static_assets`: skip the item when its path matches any
exclude pattern; copy a directory recursively after removing an existing
destination; copy a file with `copy2`. -/
def copyOne {Ctx : Type} (b : SiteBuilder Ctx) (excl : List String) (static_dest : FPath)
    (fs : FS) (name : String) : FS × Option Err :=
  if excl.any (fun pat => pathMatch (b.static_dir ++ [name]) pat) then (fs, none)
  else if FS.isDir fs (b.static_dir ++ [name]) then
    copytree (b.static_dir ++ [name]) (static_dest ++ [name])
      (if FS.pexists fs (static_dest ++ [name]) then rmtree (static_dest ++ [name]) fs else fs)
  else copy2 (b.static_dir ++ [name]) (static_dest ++ [name]) fs

/-- The iteration of `copy_static_assets` over the listed children, stopping
at (and propagating) the first error. -/
def goChildren {Ctx : Type} (b : SiteBuilder Ctx) (excl : List String) (static_dest : FPath) :
    List String → FS → FS × Option Err
  | [], fs => (fs, none)
  | n :: ns, fs =>
    match copyOne b excl static_dest fs n with
    | (fs', some e) => (fs', some e)
    | (fs', none) => goChildren b excl static_dest ns fs'

/-- `SiteBuilder.copy_static_assets`: a no-op when the static source
directory does not exist; otherwise create `<buildDir>/static` and process
each direct child of the static source. -/
def copy_static_assets {Ctx : Type} (b : SiteBuilder Ctx) (fs : FS)
    (excl : List String) : FS × Option Err :=
  if ¬ FS.pexists fs b.static_dir then (fs, none)
  else
    match mkdirParents (b.build_dir ++ ["static"]) fs with
    | (fs1, some e) => (fs1, some e)
    | (fs1, none) => goChildren b excl (b.build_dir ++ ["static"]) (childNames fs1 b.static_dir) fs1

/-! ## File hashing (`src/hardboiled/utils.py`)

`get_file_hash` feeds the file's bytes, in 8192-byte chunks, to a `hashlib`
hash object and returns its hex digest.  The default algorithm `md5` is
modelled concretely (RFC 1321), on `Nat` with explicit `% 2^32`; bytes are
`Nat`s below 256. -/

/-- Fuel-bounded worker behind `chunksOfSucc`: each step strips at least one
element, so any fuel of at least the list's length computes the chunks. -/
def chunksGo (n : Nat) : Nat → List α → List (List α)
  | _, [] => []
  | 0, _ :: _ => []
  | fuel + 1, a :: l => (a :: l).take (n + 1) :: chunksGo n fuel ((a :: l).drop (n + 1))

/-- Split a list into chunks of `n + 1` elements (the last one possibly
shorter). -/
def chunksOfSucc (n : Nat) (l : List α) : List (List α) :=
  chunksGo n l.length l

/-- 32-bit left rotation of `x < 2^32` by `n ≤ 32` bits. -/
def rotl32 (x n : Nat) : Nat :=
  ((x <<< n) ||| (x >>> (32 - n))) % 4294967296

/-- The MD5 sine-derived constant table. -/
def md5K : List Nat :=
  [0xd76aa478, 0xe8c7b756, 0x242070db, 0xc1bdceee,
   0xf57c0faf, 0x4787c62a, 0xa8304613, 0xfd469501,
   0x698098d8, 0x8b44f7af, 0xffff5bb1, 0x895cd7be,
   0x6b901122, 0xfd987193, 0xa679438e, 0x49b40821,
   0xf61e2562, 0xc040b340, 0x265e5a51, 0xe9b6c7aa,
   0xd62f105d, 0x02441453, 0xd8a1e681, 0xe7d3fbc8,
   0x21e1cde6, 0xc33707d6, 0xf4d50d87, 0x455a14ed,
   0xa9e3e905, 0xfcefa3f8, 0x676f02d9, 0x8d2a4c8a,
   0xfffa3942, 0x8771f681, 0x6d9d6122, 0xfde5380c,
   0xa4beea44, 0x4bdecfa9, 0xf6bb4b60, 0xbebfbc70,
   0x289b7ec6, 0xeaa127fa, 0xd4ef3085, 0x04881d05,
   0xd9d4d039, 0xe6db99e5, 0x1fa27cf8, 0xc4ac5665,
   0xf4292244, 0x432aff97, 0xab9423a7, 0xfc93a039,
   0x655b59c3, 0x8f0ccc92, 0xffeff47d, 0x85845dd1,
   0x6fa87e4f, 0xfe2ce6e0, 0xa3014314, 0x4e0811a1,
   0xf7537e82, 0xbd3af235, 0x2ad7d2bb, 0xeb86d391]

/-- The MD5 per-round left-rotation amounts. -/
def md5S : List Nat :=
  [7, 12, 17, 22, 7, 12, 17, 22, 7, 12, 17, 22, 7, 12, 17, 22,
   5, 9, 14, 20, 5, 9, 14, 20, 5, 9, 14, 20, 5, 9, 14, 20,
   4, 11, 16, 23, 4, 11, 16, 23, 4, 11, 16, 23, 4, 11, 16, 23,
   6, 10, 15, 21, 6, 10, 15, 21, 6, 10, 15, 21, 6, 10, 15, 21]

/-- The MD5 round functions F, G, H, I, selected by the round index. -/
def md5F (i b c d : Nat) : Nat :=
  if i < 16 then (b &&& c) ||| ((b ^^^ 0xffffffff) &&& d)
  else if i < 32 then (d &&& b) ||| ((d ^^^ 0xffffffff) &&& c)
  else if i < 48 then b ^^^ c ^^^ d
  else c ^^^ (b ||| (d ^^^ 0xffffffff))

/-- The MD5 message-word index schedule. -/
def md5G (i : Nat) : Nat :=
  if i < 16 then i
  else if i < 32 then (5 * i + 1) % 16
  else if i < 48 then (3 * i + 5) % 16
  else (7 * i) % 16

/-- One MD5 round on the state `(a, b, c, d)`. -/
def md5Round (M : List Nat) (st : Nat × Nat × Nat × Nat) (i : Nat) : Nat × Nat × Nat × Nat :=
  let f := (md5F i st.2.1 st.2.2.1 st.2.2.2 + st.1 + md5K.getD i 0 + M.getD (md5G i) 0)
    % 4294967296
  (st.2.2.2, (st.2.1 + rotl32 f (md5S.getD i 0)) % 4294967296, st.2.1, st.2.2.1)

/-- Decode a 64-byte block into 16 little-endian 32-bit words. -/
def wordsLE (block : List Nat) : List Nat :=
  (List.range 16).map fun j =>
    block.getD (4 * j) 0 + 256 * block.getD (4 * j + 1) 0 +
      65536 * block.getD (4 * j + 2) 0 + 16777216 * block.getD (4 * j + 3) 0

/-- Process one 64-byte block: 64 rounds, then add into the chaining state. -/
def md5Block (st : Nat × Nat × Nat × Nat) (block : List Nat) : Nat × Nat × Nat × Nat :=
  let r := (List.range 64).foldl (md5Round (wordsLE block)) st
  ((st.1 + r.1) % 4294967296, (st.2.1 + r.2.1) % 4294967296,
    (st.2.2.1 + r.2.2.1) % 4294967296, (st.2.2.2 + r.2.2.2) % 4294967296)

/-- The `k` least-significant bytes of `w`, little-endian. -/
def leBytes (w k : Nat) : List Nat :=
  (List.range k).map fun i => (w >>> (8 * i)) % 256

/-- MD5 padding: a `0x80` byte, zeros to 56 mod 64, and the bit length as a
64-bit little-endian quantity. -/
def md5Pad (msg : List Nat) : List Nat :=
  msg ++ 0x80 :: List.replicate ((120 - (msg.length + 1) % 64) % 64) 0
    ++ leBytes ((8 * msg.length) % 18446744073709551616) 8

/-- The 16-byte MD5 digest of a byte sequence. -/
def md5Digest (msg : List Nat) : List Nat :=
  let st := (chunksOfSucc 63 (md5Pad msg)).foldl md5Block
    (0x67452301, 0xefcdab89, 0x98badcfe, 0x10325476)
  leBytes st.1 4 ++ leBytes st.2.1 4 ++ leBytes st.2.2.1 4 ++ leBytes st.2.2.2 4

/-- A lowercase hex digit. -/
def hexDigit (n : Nat) : Char :=
  if n < 10 then Char.ofNat (48 + n) else Char.ofNat (87 + n)

/-- Two lowercase hex digits of a byte. -/
def byteHex (b : Nat) : List Char :=
  [hexDigit (b / 16), hexDigit (b % 16)]

/-- `hexdigest()` of the MD5 of a byte sequence. -/
def md5Hex (msg : List Nat) : String :=
  String.mk ((md5Digest msg).flatMap byteHex)

/-- `get_file_hash` with the default `md5` algorithm, as a function of the
file's bytes: the read loop feeds the 8192-byte chunks of the file to the
hash object, which digests their concatenation. -/
def get_file_hash (content : List Nat) : String :=
  md5Hex (chunksOfSucc 8191 content).flatten

/-- `get_file_hash` applied to a path, given the ambient file contents. -/
def get_file_hash_file (read : FPath → List Nat) (p : FPath) : String :=
  get_file_hash (read p)

/-- `get_file_hash_short`: the Python slice `get_file_hash(file_path)[:length]`
on the character-list view of the digest string. -/
def get_file_hash_short (content : List Nat) (len : Nat) : String :=
  String.mk ((get_file_hash content).data.take len)

/-! ## Concrete fixtures used by witness theorems -/

/-- A rendering environment for witnesses: fails on `boom.html`, renders
anything else. -/
def envW : String → Unit → Except Err String := fun t _ =>
  if t = "boom.html" then Except.error (Err.render "boom") else Except.ok ("rendered " ++ t)

/-- A builder instance for witnesses, with the default directory layout. -/
def BW : SiteBuilder Unit :=
  ⟨["src", "templates"], ["src", "static"], ["build"], envW⟩

/-- A source tree for witnesses: a top-level `style.css` file and a `css/`
directory holding `main.css`. -/
def fsW : FS :=
  [(["src"], Node.dir),
   (["src", "static"], Node.dir),
   (["src", "static", "style.css"], Node.file "body {}"),
   (["src", "static", "css"], Node.dir),
   (["src", "static", "css", "main.css"], Node.file ".main {}")]

/-- `fsW` with a stale `build/static/css` tree already present. -/
def fsW2 : FS :=
  fsW ++
    [(["build"], Node.dir),
     (["build", "static"], Node.dir),
     (["build", "static", "css"], Node.dir),
     (["build", "static", "css", "old.css"], Node.file "old"),
     (["build", "static", "css", "sub"], Node.dir)]

/-- The result of `copy_static_assets` on `fsW` with pattern `*.css`. -/
def fsW' : FS :=
  [(["build", "static", "css"], Node.dir),
   (["build", "static", "css", "main.css"], Node.file ".main {}"),
   (["build", "static"], Node.dir),
   (["build"], Node.dir)] ++ fsW

/-- The result of `copy_static_assets` on `fsW2` with pattern `*.css`: the
stale `build/static/css` tree is gone, replaced by the source's contents. -/
def fsW2' : FS :=
  [(["build", "static", "css"], Node.dir),
   (["build", "static", "css", "main.css"], Node.file ".main {}")] ++
    (fsW ++ [(["build"], Node.dir), (["build", "static"], Node.dir)])

/-! # Lemmas -/

theorem FS.lookup_nil_path (fs : FS) : FS.lookup fs [] = some Node.dir := by
  simp [FS.lookup]

theorem FS.lookup_cons (a : FPath × Node) (fs : FS) (q : FPath) :
    FS.lookup (a :: fs) q =
      if q = [] then some Node.dir
      else if a.1 = q then some a.2 else FS.lookup fs q := by
  by_cases hq : q = []
  · simp [FS.lookup, hq]
  · by_cases ha : a.1 = q
    · simp [FS.lookup, hq, ha, List.find?_cons_of_pos]
    · rw [FS.lookup, if_neg hq, List.find?_cons_of_neg _ (by simp [ha]),
        if_neg hq, if_neg ha, FS.lookup, if_neg hq]

theorem FS.lookup_setNode (p : FPath) (n : Node) (fs : FS) (q : FPath) (hp : p ≠ []) :
    FS.lookup (FS.setNode p n fs) q =
      if q = p then some n else FS.lookup fs q := by
  rw [FS.setNode, FS.lookup_cons]
  by_cases hq : q = []
  · subst hq
    rw [if_pos rfl, if_neg (fun h => hp h.symm), FS.lookup_nil_path]
  · rw [if_neg hq]
    by_cases he : p = q
    · rw [if_pos he, if_pos he.symm]
    · rw [if_neg he, if_neg (fun h => he h.symm)]

/-- `mkdirGo` preserves every existing binding. -/
theorem mkdirGo_mono (l : List FPath) (fs fs' : FS) (r : Option Err)
    (h : mkdirGo l fs = (fs', r)) (q : FPath) (n : Node)
    (hq : FS.lookup fs q = some n) : FS.lookup fs' q = some n := by
  induction l generalizing fs with
  | nil =>
    simp only [mkdirGo] at h
    cases h
    exact hq
  | cons a l ih =>
    rw [mkdirGo] at h
    rcases hl : FS.lookup fs a with _ | n'
    · rw [hl] at h
      refine ih _ h ?_
      rw [FS.lookup_cons]
      have ha : a ≠ [] := by
        intro hcon
        rw [hcon, FS.lookup_nil_path] at hl
        cases hl
      by_cases hqe : q = []
      · rw [hqe, FS.lookup_nil_path] at hq
        cases hq
        simp [hqe]
      · rw [if_neg hqe]
        by_cases hae : a = q
        · rw [hae, hq] at hl
          cases hl
        · rw [if_neg hae]
          exact hq
    · cases n' with
      | file c =>
        rw [hl] at h
        cases h
        exact hq
      | dir =>
        rw [hl] at h
        exact ih _ h hq

/-- After a successful `mkdirGo`, every listed path is a directory. -/
theorem mkdirGo_post (l : List FPath) (fs fs' : FS)
    (h : mkdirGo l fs = (fs', none)) (q : FPath) (hq : q ∈ l) :
    FS.lookup fs' q = some Node.dir := by
  induction l generalizing fs with
  | nil => cases hq
  | cons a l ih =>
    rw [mkdirGo] at h
    rcases hl : FS.lookup fs a with _ | n'
    · rw [hl] at h
      rcases List.mem_cons.mp hq with hqa | hql
      · subst hqa
        refine mkdirGo_mono _ _ _ _ h q Node.dir ?_
        have ha : q ≠ [] := by
          intro hcon
          rw [hcon, FS.lookup_nil_path] at hl
          cases hl
        rw [FS.lookup_cons, if_neg ha, if_pos rfl]
      · exact ih _ h hql
    · cases n' with
      | file c =>
        rw [hl] at h
        cases h
      | dir =>
        rw [hl] at h
        rcases List.mem_cons.mp hq with hqa | hql
        · subst hqa
          exact mkdirGo_mono _ _ _ _ h q Node.dir hl
        · exact ih _ h hql

/-- `mkdirGo` on a filesystem where every listed path is already a directory
changes nothing and succeeds: `exist_ok=True`. -/
theorem mkdirGo_id (l : List FPath) (fs : FS)
    (h : ∀ q ∈ l, FS.lookup fs q = some Node.dir) : mkdirGo l fs = (fs, none) := by
  induction l with
  | nil => rfl
  | cons a l ih =>
    rw [mkdirGo, h a (List.mem_cons_self a l)]
    exact ih (fun q hq => h q (List.mem_cons_of_mem a hq))

/-- Any binding `mkdirGo` changes was absent and becomes a listed directory. -/
theorem mkdirGo_lookup_or (l : List FPath) (fs fs' : FS) (r : Option Err)
    (h : mkdirGo l fs = (fs', r)) (q : FPath) :
    FS.lookup fs' q = FS.lookup fs q ∨
      (q ∈ l ∧ FS.lookup fs q = none ∧ FS.lookup fs' q = some Node.dir) := by
  induction l generalizing fs with
  | nil =>
    simp only [mkdirGo] at h
    cases h
    exact Or.inl rfl
  | cons a l ih =>
    rw [mkdirGo] at h
    rcases hl : FS.lookup fs a with _ | n'
    · rw [hl] at h
      have ha : a ≠ [] := by
        intro hcon
        rw [hcon, FS.lookup_nil_path] at hl
        cases hl
      rcases ih _ h with h1 | ⟨hm, h2, h3⟩
      · rw [FS.lookup_cons] at h1
        by_cases hqe : q = []
        · left
          rw [h1, if_pos hqe, hqe, FS.lookup_nil_path]
        · rw [if_neg hqe] at h1
          by_cases hae : a = q
          · right
            subst hae
            rw [if_pos rfl] at h1
            exact ⟨List.mem_cons_self _ _, hl, h1⟩
          · left
            rw [if_neg hae] at h1
            exact h1
      · rw [FS.lookup_cons] at h2
        by_cases hqe : q = []
        · rw [if_pos hqe] at h2
          cases h2
        · rw [if_neg hqe] at h2
          by_cases hae : a = q
          · rw [if_pos hae] at h2
            cases h2
          · rw [if_neg hae] at h2
            exact Or.inr ⟨List.mem_cons_of_mem a hm, h2, h3⟩
    · cases n' with
      | file c =>
        rw [hl] at h
        cases h
        exact Or.inl rfl
      | dir =>
        rw [hl] at h
        rcases ih _ h with h1 | ⟨hm, h2, h3⟩
        · exact Or.inl h1
        · exact Or.inr ⟨List.mem_cons_of_mem a hm, h2, h3⟩

/-- `mkdirGo` never creates, destroys or modifies a regular file. -/
theorem mkdirGo_fileAt (l : List FPath) (fs fs' : FS) (r : Option Err)
    (h : mkdirGo l fs = (fs', r)) (q : FPath) :
    FS.fileAt fs' q = FS.fileAt fs q := by
  rcases mkdirGo_lookup_or l fs fs' r h q with h1 | ⟨_, h2, h3⟩
  · rw [FS.fileAt, FS.fileAt, h1]
  · rw [FS.fileAt, FS.fileAt, h2, h3]

theorem mkdirParents_mono (p : FPath) (fs fs' : FS) (r : Option Err)
    (h : mkdirParents p fs = (fs', r)) (q : FPath) (n : Node)
    (hq : FS.lookup fs q = some n) : FS.lookup fs' q = some n :=
  mkdirGo_mono _ _ _ _ h q n hq

theorem mkdirParents_post (p : FPath) (fs fs' : FS)
    (h : mkdirParents p fs = (fs', none)) (q : FPath) (hq : q ∈ prefixChain p) :
    FS.lookup fs' q = some Node.dir :=
  mkdirGo_post _ _ _ h q hq

theorem mkdirParents_id (p : FPath) (fs : FS)
    (h : ∀ q ∈ prefixChain p, FS.lookup fs q = some Node.dir) :
    mkdirParents p fs = (fs, none) :=
  mkdirGo_id _ _ h

/-- `ensureGo` preserves every existing binding. -/
theorem ensureGo_mono (base : FPath) (sds : List String) (fs fs' : FS) (r : Option Err)
    (h : ensureGo base sds fs = (fs', r)) (q : FPath) (n : Node)
    (hq : FS.lookup fs q = some n) : FS.lookup fs' q = some n := by
  induction sds generalizing fs with
  | nil =>
    simp only [ensureGo] at h
    cases h
    exact hq
  | cons sd sds ih =>
    rw [ensureGo] at h
    rcases hm : mkdirParents (base ++ splitPath sd) fs with ⟨fs1, r1⟩
    rw [hm] at h
    cases r1 with
    | none => exact ih _ h (mkdirParents_mono _ _ _ _ hm q n hq)
    | some e =>
      cases h
      exact mkdirParents_mono _ _ _ _ hm q n hq

/-- After a successful `ensureGo`, the whole directory chain of every listed
subdirectory exists. -/
theorem ensureGo_post (base : FPath) (sds : List String) (fs fs' : FS)
    (h : ensureGo base sds fs = (fs', none)) (sd : String) (hsd : sd ∈ sds)
    (q : FPath) (hq : q ∈ prefixChain (base ++ splitPath sd)) :
    FS.lookup fs' q = some Node.dir := by
  induction sds generalizing fs with
  | nil => cases hsd
  | cons sd' sds ih =>
    rw [ensureGo] at h
    rcases hm : mkdirParents (base ++ splitPath sd') fs with ⟨fs1, r1⟩
    rw [hm] at h
    cases r1 with
    | none =>
      rcases List.mem_cons.mp hsd with hsd1 | hsd2
      · subst hsd1
        exact ensureGo_mono _ _ _ _ _ h q Node.dir (mkdirParents_post _ _ _ hm q hq)
      · exact ih _ h hsd2
    | some e => cases h

/-- `ensureGo` on a filesystem where every needed directory already exists
changes nothing and succeeds. -/
theorem ensureGo_id (base : FPath) (sds : List String) (fs : FS)
    (h : ∀ sd ∈ sds, ∀ q ∈ prefixChain (base ++ splitPath sd),
      FS.lookup fs q = some Node.dir) :
    ensureGo base sds fs = (fs, none) := by
  induction sds with
  | nil => rfl
  | cons sd sds ih =>
    rw [ensureGo, mkdirParents_id _ _ (h sd (List.mem_cons_self sd sds))]
    exact ih (fun sd' hsd' q hq => h sd' (List.mem_cons_of_mem sd hsd') q hq)

/-! # Claim theorems -/

/-- C6.  `EnsureBuildDirs` creates the root output directory and each listed
subdirectory recursively (every directory on their chains exists afterwards),
succeeds silently when they already exist, and is idempotent: after a
successful call, calling it again returns the very same filesystem with no
error. -/
theorem ensure_build_dirs_idempotent {Ctx : Type} (b : SiteBuilder Ctx) (fs fs' : FS)
    (sds : List String) (h : ensure_build_dirs b fs sds = (fs', none)) :
    ensure_build_dirs b fs' sds = (fs', none) ∧
    (∀ q ∈ prefixChain b.build_dir, FS.isDir fs' q = true) ∧
    (∀ sd ∈ sds, ∀ q ∈ prefixChain (b.build_dir ++ splitPath sd), FS.isDir fs' q = true) := by
  rw [ensure_build_dirs] at h
  rcases hm : mkdirParents b.build_dir fs with ⟨fs1, r1⟩
  rw [hm] at h
  cases r1 with
  | some e => cases h
  | none =>
    have hroot : ∀ q ∈ prefixChain b.build_dir, FS.lookup fs' q = some Node.dir := by
      intro q hq
      exact ensureGo_mono _ _ _ _ _ h q Node.dir (mkdirParents_post _ _ _ hm q hq)
    have hsub : ∀ sd ∈ sds, ∀ q ∈ prefixChain (b.build_dir ++ splitPath sd),
        FS.lookup fs' q = some Node.dir := fun sd hsd q hq => ensureGo_post _ _ _ _ h sd hsd q hq
    refine ⟨?_, fun q hq => by simp [FS.isDir, hroot q hq],
      fun sd hsd q hq => by simp [FS.isDir, hsub sd hsd q hq]⟩
    rw [ensure_build_dirs, mkdirParents_id _ _ hroot]
    exact ensureGo_id _ _ _ hsub

/-- Witness for C6 at a concrete builder, empty filesystem and subdirectory
list `["css", "js/min"]`. -/
theorem ensure_build_dirs_idempotent_witness :
    ensure_build_dirs BW [] ["css", "js/min"] =
      ([(["build", "js", "min"], Node.dir), (["build", "js"], Node.dir),
        (["build", "css"], Node.dir), (["build"], Node.dir)], none) ∧
    ensure_build_dirs BW
        [(["build", "js", "min"], Node.dir), (["build", "js"], Node.dir),
          (["build", "css"], Node.dir), (["build"], Node.dir)] ["css", "js/min"] =
      ([(["build", "js", "min"], Node.dir), (["build", "js"], Node.dir),
        (["build", "css"], Node.dir), (["build"], Node.dir)], none) :=
  ⟨by decide,
    (ensure_build_dirs_idempotent BW []
      [(["build", "js", "min"], Node.dir), (["build", "js"], Node.dir),
        (["build", "css"], Node.dir), (["build"], Node.dir)]
      ["css", "js/min"] (by decide)).1⟩

/-- An ASCII character cannot be both uppercase and lowercase. -/
theorem isUpper_not_isLower (c : Char) (h : c.isUpper = true) : c.isLower = false := by
  unfold Char.isUpper at h
  unfold Char.isLower
  simp only [Bool.and_eq_true, decide_eq_true_eq] at h
  rcases h with ⟨h1, h2⟩
  simp only [Bool.and_eq_false_iff, decide_eq_false_iff_not]
  left
  intro h3
  have h2n : c.val.toNat ≤ 90 := h2
  have h3n : (97 : Nat) ≤ c.val.toNat := h3
  omega

theorem pyIsUpper_iff (k : String) :
    Config.pyIsUpper k = true ↔
      ((∃ c ∈ k.data, c.isUpper = true) ∧ (∀ c ∈ k.data, c.isLower = false)) := by
  rw [Config.pyIsUpper, Bool.and_eq_true, List.any_eq_true, List.all_eq_true]
  constructor
  · rintro ⟨⟨c0, hc0, hcase⟩, hall⟩
    have hup : c0.isUpper = true := by
      have := hall c0 hc0
      rcases Bool.or_eq_true_iff.mp this with hn | hy
      · rw [Bool.not_eq_true'] at hn
        rw [hn] at hcase
        cases hcase
      · exact hy
    refine ⟨⟨c0, hc0, hup⟩, fun c hc => ?_⟩
    rcases Bool.or_eq_true_iff.mp (hall c hc) with hn | hy
    · rw [Bool.not_eq_true'] at hn
      rcases Bool.or_eq_false_iff.mp hn with ⟨_, hl⟩
      exact hl
    · exact isUpper_not_isLower c hy
  · rintro ⟨⟨c0, hc0, hup⟩, hnl⟩
    refine ⟨⟨c0, hc0, by rw [hup, Bool.true_or]⟩, fun c hc => ?_⟩
    by_cases hcu : c.isUpper = true
    · rw [hcu, Bool.or_true]
    · rw [Bool.not_eq_true] at hcu
      rw [hcu, hnl c hc]
      simp

/-- `startswith("_")` is a condition on the first character. -/
theorem strStarts_underscore (k : String) :
    strStarts k "_" = true ↔ k.data.head? = some '_' := by
  rw [strStarts, List.isPrefixOf_iff_prefix]
  show ['_'] <+: k.data ↔ _
  cases hd : k.data with
  | nil => simp
  | cons c cs =>
    constructor
    · rintro ⟨t, ht⟩
      rw [List.cons_append, List.nil_append] at ht
      injection ht with h1 _
      rw [List.head?_cons, h1]
    · intro h
      rw [List.head?_cons, Option.some_inj] at h
      exact ⟨cs, by rw [h]; rfl⟩

/-- C4.  `ToDict` keeps exactly the attribute bindings whose name contains an
uppercase letter, contains no lowercase letter (Python's `isupper()`), and
does not begin with an underscore; bindings are passed through unchanged, so
key casing and values are preserved, and lowercase, mixed-case or
underscore-prefixed names never appear. -/
theorem to_dict_spec {V : Type} (attrs : List (String × V)) (k : String) (v : V) :
    (k, v) ∈ Config.to_dict attrs ↔
      ((k, v) ∈ attrs ∧ (∃ c ∈ k.data, c.isUpper = true) ∧
        (∀ c ∈ k.data, c.isLower = false) ∧ k.data.head? ≠ some '_') := by
  rw [Config.to_dict, List.mem_filter]
  constructor
  · rintro ⟨hmem, hp⟩
    rw [Bool.and_eq_true] at hp
    rcases hp with ⟨h1, h2⟩
    rcases (pyIsUpper_iff k).mp h1 with ⟨hex, hall⟩
    refine ⟨hmem, hex, hall, fun hh => ?_⟩
    rw [Bool.not_eq_true'] at h2
    rw [(strStarts_underscore k).mpr hh] at h2
    cases h2
  · rintro ⟨hmem, hex, hall, hh⟩
    refine ⟨hmem, ?_⟩
    rw [Bool.and_eq_true]
    refine ⟨(pyIsUpper_iff k).mpr ⟨hex, hall⟩, ?_⟩
    rw [Bool.not_eq_true']
    rcases hs : strStarts k "_" with _ | _
    · rfl
    · exact absurd ((strStarts_underscore k).mp hs) hh

/-- C5.  `Require` fails if and only if the key is absent from the process
environment, with an error message that contains the missing key by name;
when the key is present it returns its value; and `Get` on an absent key
returns the supplied default without any error. -/
theorem require_get_spec (env : EnvMap) (key : String) (d : String) :
    ((∃ msg, Config.require env key = Except.error msg ∧
        ∃ pre post, msg = pre ++ key ++ post) ↔ env key = none) ∧
    (∀ v, env key = some v → Config.require env key = Except.ok v) ∧
    (env key = none → Config.get env key (some d) = some d) := by
  rcases he : env key with _ | v
  · refine ⟨⟨fun _ => rfl, fun _ => ?_⟩, ?_, ?_⟩
    · refine ⟨Config.requireMsg key, ?_, "Required environment variable '", "' is not set", rfl⟩
      rw [Config.require, he]
    · intro v hv
      cases hv
    · intro _
      rw [Config.get, he]
  · refine ⟨⟨?_, ?_⟩, ?_, ?_⟩
    · rintro ⟨msg, hmsg, _⟩
      rw [Config.require, he] at hmsg
      cases hmsg
    · intro hn
      cases hn
    · intro v' hv'
      injection hv' with hv
      rw [Config.require, he, hv]
    · intro hn
      cases hn

/-- Witness for C5 at the empty environment and the key `SITE_NAME`. -/
theorem require_get_witness :
    (∃ msg, Config.require (fun _ => none) "SITE_NAME" = Except.error msg ∧
      ∃ pre post, msg = pre ++ "SITE_NAME" ++ post) ∧
    Config.get (fun _ => none) "SITE_NAME" (some "fallback") = some "fallback" :=
  ⟨(require_get_spec (fun _ => none) "SITE_NAME" "fallback").1.mpr rfl,
    (require_get_spec (fun _ => none) "SITE_NAME" "fallback").2.2 rfl⟩

/-- A failing `render_template` never creates, destroys or modifies a
regular file: the engine fails before any filesystem effect, a `mkdir`
failure only adds directories, and a failing write changes nothing. -/
theorem render_template_error_fileAt {Ctx : Type} (b : SiteBuilder Ctx) (fs fs' : FS)
    (t : String) (ctx : Ctx) (out : Option String) (e : Err)
    (h : render_template b fs t ctx out = (fs', Except.error e)) (q : FPath) :
    FS.fileAt fs' q = FS.fileAt fs q := by
  rw [render_template] at h
  rcases henv : b.env t ctx with e0 | html
  · rw [henv] at h
    cases h
    rfl
  · rw [henv] at h
    dsimp only at h
    rcases hm : mkdirParents (joinPath b.build_dir (effectiveOutput t out)).dropLast fs
      with ⟨fs1, r1⟩
    rw [hm] at h
    cases r1 with
    | some e1 =>
      cases h
      exact mkdirGo_fileAt _ _ _ _ hm q
    | none =>
      dsimp only at h
      rcases hw : writeText (joinPath b.build_dir (effectiveOutput t out)) html fs1
        with ⟨fs2, r2⟩
      rw [hw] at h
      cases r2 with
      | some e2 =>
        cases h
        rw [writeText] at hw
        split_ifs at hw with h1 h2
        · cases hw
          exact mkdirGo_fileAt _ _ _ _ hm q
        · cases hw
        · cases hw
          exact mkdirGo_fileAt _ _ _ _ hm q
      | none => cases h

/-- C1.  On success, `RenderTemplate` returns exactly the engine's rendered
text, writes it (overwriting) at `<buildDir>/<outputName>`, has made that
path's parent directory a directory, changes no regular file at any other
path (any other change is a directory created on the parent chain), and an
omitted output name means the output path is `<buildDir>/<templateName>`. -/
theorem render_template_spec {Ctx : Type} (b : SiteBuilder Ctx) (fs : FS) (t : String)
    (ctx : Ctx) (out : Option String) (fs' : FS) (html : String)
    (h : render_template b fs t ctx out = (fs', Except.ok html)) :
    b.env t ctx = Except.ok html ∧
    FS.lookup fs' (outPath b t out) = some (Node.file html) ∧
    FS.isDir fs' ((outPath b t out).dropLast) = true ∧
    (∀ q, q ≠ outPath b t out → FS.fileAt fs' q = FS.fileAt fs q) ∧
    (∀ q, FS.lookup fs' q ≠ FS.lookup fs q →
      q = outPath b t out ∨ FS.lookup fs' q = some Node.dir) ∧
    (out = none → outPath b t out = joinPath b.build_dir t) := by
  rw [render_template] at h
  rcases henv : b.env t ctx with e0 | html0
  · rw [henv] at h
    cases h
  · rw [henv] at h
    dsimp only at h
    rcases hm : mkdirParents (joinPath b.build_dir (effectiveOutput t out)).dropLast fs
      with ⟨fs1, r1⟩
    rw [hm] at h
    cases r1 with
    | some e1 => cases h
    | none =>
      dsimp only at h
      rcases hw : writeText (joinPath b.build_dir (effectiveOutput t out)) html0 fs1
        with ⟨fs2, r2⟩
      rw [hw] at h
      cases r2 with
      | some e2 => cases h
      | none =>
        injection h with h1 h2
        injection h2 with h2
        subst h1
        subst h2
        rw [writeText] at hw
        split_ifs at hw with hd hpar
        · cases hw
        · injection hw with hwfs _
          have hop : outPath b t out = joinPath b.build_dir (effectiveOutput t out) := rfl
          have hne : joinPath b.build_dir (effectiveOutput t out) ≠ [] := by
            intro hcon
            rw [hcon, FS.lookup_nil_path] at hd
            exact hd rfl
          have hpar2 : FS.lookup fs1
              (joinPath b.build_dir (effectiveOutput t out)).dropLast = some Node.dir :=
            hpar.resolve_left hne
          have hne2 : (joinPath b.build_dir (effectiveOutput t out)).dropLast ≠
              joinPath b.build_dir (effectiveOutput t out) := by
            intro hcon
            have hlen := congrArg List.length hcon
            rw [List.length_dropLast] at hlen
            have hpos : 0 < (joinPath b.build_dir (effectiveOutput t out)).length :=
              List.length_pos.mpr hne
            omega
          refine ⟨rfl, ?_, ?_, ?_, ?_, fun hnone => by rw [hnone]; rfl⟩
          · rw [hop, ← hwfs, FS.lookup_setNode _ _ _ _ hne]
            simp
          · rw [hop]
            have hlk : FS.lookup fs2
                (joinPath b.build_dir (effectiveOutput t out)).dropLast = some Node.dir := by
              rw [← hwfs, FS.lookup_setNode _ _ _ _ hne, if_neg hne2]
              exact hpar2
            simp [FS.isDir, hlk]
          · intro q hq
            rw [hop] at hq
            have h4 : FS.fileAt fs2 q = FS.fileAt fs1 q := by
              rw [FS.fileAt, FS.fileAt, ← hwfs, FS.lookup_setNode _ _ _ _ hne, if_neg hq]
            rw [h4]
            exact mkdirGo_fileAt _ _ _ _ hm q
          · intro q hq
            by_cases hqo : q = outPath b t out
            · exact Or.inl hqo
            · rw [hop] at hqo
              have h5 : FS.lookup fs2 q = FS.lookup fs1 q := by
                rw [← hwfs, FS.lookup_setNode _ _ _ _ hne, if_neg hqo]
              rcases mkdirGo_lookup_or _ _ _ _ hm q with h6 | ⟨_, _, h7⟩
              · exact absurd (h5.trans h6) hq
              · exact Or.inr (h5.trans h7)
        · cases hw

/-- Witness for C1: rendering `index.html` to explicit output `home.html`
from an empty filesystem writes `build/home.html` and leaves the template's
own output path `build/index.html` untouched. -/
theorem render_template_spec_witness :
    FS.lookup [(["build", "home.html"], Node.file "rendered index.html"), (["build"], Node.dir)]
        (outPath BW "index.html" (some "home.html")) = some (Node.file "rendered index.html") ∧
    FS.fileAt [(["build", "home.html"], Node.file "rendered index.html"), (["build"], Node.dir)]
        ["build", "index.html"] = FS.fileAt [] ["build", "index.html"] :=
  ⟨(render_template_spec BW [] "index.html" () (some "home.html")
      [(["build", "home.html"], Node.file "rendered index.html"), (["build"], Node.dir)]
      "rendered index.html" rfl).2.1,
   (render_template_spec BW [] "index.html" () (some "home.html")
      [(["build", "home.html"], Node.file "rendered index.html"), (["build"], Node.dir)]
      "rendered index.html" rfl).2.2.2.1 ["build", "index.html"] (by decide)⟩

/-- Two output-name arguments with the same effective output name make
`render_template` behave identically. -/
theorem render_template_congr_out {Ctx : Type} (b : SiteBuilder Ctx) (fs : FS) (t : String)
    (ctx : Ctx) (o1 o2 : Option String)
    (h : effectiveOutput t o1 = effectiveOutput t o2) :
    render_template b fs t ctx o1 = render_template b fs t ctx o2 := by
  rw [render_template, render_template, h]

/-- C9.  An empty-string output name is treated exactly like an omitted one:
`render_template` falls back to the template name, both when called directly
and when the pair `(t, "")` is passed through `render_pages`. -/
theorem empty_output_name_spec {Ctx : Type} (b : SiteBuilder Ctx) (fs : FS) (t : String)
    (ctx : Ctx) :
    render_template b fs t ctx (some "") = render_template b fs t ctx none ∧
    outPath b t (some "") = joinPath b.build_dir t ∧
    render_pages b fs [PageSpec.pair t ""] ctx = render_pages b fs [PageSpec.name t] ctx := by
  have he1 : effectiveOutput t (some "") = effectiveOutput t none := rfl
  have he2 : effectiveOutput t (some t) = effectiveOutput t (some "") := by
    rw [effectiveOutput, effectiveOutput]
    by_cases ht : t = ""
    · rw [if_pos ht, if_pos rfl, ht]
    · rw [if_neg ht, if_pos rfl]
  refine ⟨render_template_congr_out b fs t ctx _ _ he1, rfl, ?_⟩
  have h1 : render_template b fs (pageTemplate (PageSpec.pair t "")) ctx
        (some (pageOutput (PageSpec.pair t ""))) =
      render_template b fs (pageTemplate (PageSpec.name t)) ctx
        (some (pageOutput (PageSpec.name t))) := by
    show render_template b fs t ctx (some "") = render_template b fs t ctx (some t)
    exact render_template_congr_out b fs t ctx _ _ he2.symm
  rw [render_pages, render_pages, h1]

/-- C3.  `RenderPages` renders the entries in order with the shared context:
after any successful prefix, a failing page makes the whole call return that
page's error and the filesystem state reached at the failure, independent of
the remaining entries (they are neither rendered nor written), and every
regular file present after the successful prefix — in particular each earlier
page's output — is still intact in the final state. -/
theorem render_pages_abort {Ctx : Type} (b : SiteBuilder Ctx) (fs fs₁ fs₂ : FS)
    (ctx : Ctx) (done : List PageSpec) (p : PageSpec) (rest : List PageSpec) (e : Err)
    (hdone : render_pages b fs done ctx = (fs₁, Except.ok ()))
    (hfail : render_template b fs₁ (pageTemplate p) ctx (some (pageOutput p)) =
      (fs₂, Except.error e)) :
    render_pages b fs (done ++ p :: rest) ctx = (fs₂, Except.error e) ∧
    (∀ q, FS.fileAt fs₂ q = FS.fileAt fs₁ q) := by
  refine ⟨?_, fun q => render_template_error_fileAt b fs₁ fs₂ _ ctx _ e hfail q⟩
  induction done generalizing fs with
  | nil =>
    rw [render_pages] at hdone
    injection hdone with h1 _
    subst h1
    rw [List.nil_append, render_pages, hfail]
  | cons d done ih =>
    rw [render_pages] at hdone
    rcases hrt : render_template b fs (pageTemplate d) ctx (some (pageOutput d))
      with ⟨fsx, rx⟩
    rw [hrt] at hdone
    cases rx with
    | error ex => cases hdone
    | ok _ =>
      rw [List.cons_append, render_pages, hrt]
      exact ih _ hdone

/-- Witness for C3: with pages `a.html`, `boom.html`, `c.html`, the failure
on the second page propagates, the first page's output survives, and the
third page is never rendered. -/
theorem render_pages_abort_witness :
    render_pages BW []
        [PageSpec.name "a.html", PageSpec.name "boom.html", PageSpec.name "c.html"] () =
      ([(["build", "a.html"], Node.file "rendered a.html"), (["build"], Node.dir)],
        Except.error (Err.render "boom")) :=
  (render_pages_abort BW []
    [(["build", "a.html"], Node.file "rendered a.html"), (["build"], Node.dir)]
    [(["build", "a.html"], Node.file "rendered a.html"), (["build"], Node.dir)]
    () [PageSpec.name "a.html"] (PageSpec.name "boom.html") [PageSpec.name "c.html"]
    (Err.render "boom") rfl rfl).1

/-! ## Locality of the static-asset copy operations -/

theorem prefix_of_append_of_length_le {α : Type} {l l₁ l₂ : List α}
    (h : l <+: l₁ ++ l₂) (hl : l.length ≤ l₁.length) : l <+: l₁ := by
  rw [List.prefix_iff_eq_take] at h
  rw [List.take_append_of_le_length hl] at h
  rw [h]
  exact List.take_prefix _ _

/-- `rmtree` does not change any binding outside the removed subtree. -/
theorem rmtree_lookup_out (dest : FPath) (fs : FS) (q : FPath) (hq : ¬ dest <+: q) :
    FS.lookup (rmtree dest fs) q = FS.lookup fs q := by
  by_cases hq0 : q = []
  · rw [hq0, FS.lookup_nil_path, FS.lookup_nil_path]
  · induction fs with
    | nil => rfl
    | cons e fs ih =>
      rcases hsp : dest.isPrefixOf e.1 with _ | _
      · have hr : rmtree dest (e :: fs) = e :: rmtree dest fs := by
          rw [rmtree, rmtree, List.filter_cons]
          simp [hsp]
        rw [hr, FS.lookup_cons, FS.lookup_cons, ih]
      · have hr : rmtree dest (e :: fs) = rmtree dest fs := by
          rw [rmtree, rmtree, List.filter_cons]
          simp [hsp]
        have hne : e.1 ≠ q := fun hcon => hq (hcon ▸ List.isPrefixOf_iff_prefix.mp hsp)
        rw [hr, ih, FS.lookup_cons, if_neg hq0, if_neg hne]

/-- `rmtree` removes every binding in the removed subtree. -/
theorem rmtree_lookup_in (dest : FPath) (fs : FS) (q : FPath) (hq : dest <+: q)
    (hq0 : q ≠ []) : FS.lookup (rmtree dest fs) q = none := by
  have hnone : (rmtree dest fs).find? (fun e => decide (e.1 = q)) = none := by
    rw [List.find?_eq_none]
    intro x hx hxq
    have hx1 : x.1 = q := of_decide_eq_true hxq
    rw [rmtree] at hx
    rcases List.mem_filter.mp hx with ⟨_, hkeep⟩
    rw [Bool.not_eq_true'] at hkeep
    rw [hx1] at hkeep
    exact absurd (List.isPrefixOf_iff_prefix.mpr hq) (by simp [hkeep])
  rw [FS.lookup, if_neg hq0, hnone]
  rfl

/-- The copied-entry table of `copytree`, looked up at a destination path,
is the source table looked up at the corresponding source path. -/
theorem copytree_entries_find (src dest : FPath) (fs : FS) (q : FPath) (hq : dest <+: q) :
    (fs.filterMap fun e =>
        if src.isPrefixOf e.1 then some (dest ++ e.1.drop src.length, e.2) else none).find?
        (fun e => decide (e.1 = q)) =
      Option.map (fun e => (q, e.2))
        (fs.find? (fun e => decide (e.1 = src ++ q.drop dest.length))) := by
  obtain ⟨qr, hqr⟩ := hq
  induction fs with
  | nil => rfl
  | cons e fs ih =>
    rcases hsp : src.isPrefixOf e.1 with _ | _
    · have hfe : (if src.isPrefixOf e.1 = true
          then some (dest ++ e.1.drop src.length, e.2) else none) = none := by
        rw [hsp]
        rfl
      rw [List.filterMap_cons, hfe]
      have hns : e.1 ≠ src ++ q.drop dest.length := by
        intro hcon
        have : src.isPrefixOf e.1 = true :=
          List.isPrefixOf_iff_prefix.mpr (hcon ▸ List.prefix_append src _)
        rw [hsp] at this
        cases this
      rw [List.find?_cons_of_neg _ (by simp [hns])]
      exact ih
    · have hfe : (if src.isPrefixOf e.1 = true
          then some (dest ++ e.1.drop src.length, e.2) else none) =
          some (dest ++ e.1.drop src.length, e.2) := by
        rw [hsp]
        rfl
      rw [List.filterMap_cons, hfe]
      obtain ⟨er, her⟩ := List.isPrefixOf_iff_prefix.mp hsp
      by_cases hes : e.1 = src ++ q.drop dest.length
      · have hkey : dest ++ e.1.drop src.length = q := by
          rw [hes, List.drop_left, ← hqr, List.drop_left]
        rw [List.find?_cons_of_pos _ (by simp [hkey]), List.find?_cons_of_pos _ (by simp [hes])]
        simp [hkey]
      · have hkey : dest ++ e.1.drop src.length ≠ q := by
          intro hcon
          apply hes
          have h1 : e.1.drop src.length = er := by rw [← her, List.drop_left]
          have h2 : q.drop dest.length = e.1.drop src.length := by rw [← hcon, List.drop_left]
          rw [h2, h1]
          exact her.symm
        rw [List.find?_cons_of_neg _ (by simp [hkey]), List.find?_cons_of_neg _ (by simp [hes])]
        exact ih

/-- `copytree` does not change any binding outside the destination subtree. -/
theorem copytree_lookup_out (src dest : FPath) (fs fs' : FS) (r : Option Err)
    (h : copytree src dest fs = (fs', r)) (q : FPath) (hq : ¬ dest <+: q) :
    FS.lookup fs' q = FS.lookup fs q := by
  rw [copytree] at h
  split_ifs at h with hex
  · cases h
    rfl
  · injection h with h1 _
    by_cases hq0 : q = []
    · rw [← h1, hq0, FS.lookup_nil_path, FS.lookup_nil_path]
    · rw [← h1, FS.lookup, FS.lookup, if_neg hq0, if_neg hq0, List.find?_append]
      have hent : (fs.filterMap fun e =>
          if src.isPrefixOf e.1 then some (dest ++ e.1.drop src.length, e.2) else none).find?
          (fun e => decide (e.1 = q)) = none := by
        rw [List.find?_eq_none]
        intro x hx hxq
        rcases List.mem_filterMap.mp hx with ⟨a, _, hfa⟩
        rcases hsp : src.isPrefixOf a.1 with _ | _
        · rw [hsp] at hfa
          cases hfa
        · rw [hsp] at hfa
          injection hfa with hfa
          apply hq
          have hx1 : x.1 = q := of_decide_eq_true hxq
          rw [← hx1, ← hfa]
          exact List.prefix_append dest _
      rw [hent, Option.none_or]

/-- Inside the destination subtree, `copytree` yields the mapped source
binding, falling back to what was already there. -/
theorem copytree_lookup_in (src dest : FPath) (fs fs' : FS) (hsrc : src ≠ [])
    (h : copytree src dest fs = (fs', none)) (q : FPath) (hq : dest <+: q) (hq0 : q ≠ []) :
    FS.lookup fs' q = (FS.lookup fs (src ++ q.drop dest.length)).or (FS.lookup fs q) := by
  rw [copytree] at h
  split_ifs at h with hex
  · cases h
  · injection h with h1 _
    have hs0 : src ++ q.drop dest.length ≠ [] := by simp [hsrc]
    rw [← h1, FS.lookup, FS.lookup, FS.lookup, if_neg hq0, if_neg hq0, if_neg hs0,
      List.find?_append, copytree_entries_find src dest fs q hq]
    rcases hf2 : fs.find? (fun e => decide (e.1 = src ++ q.drop dest.length)) with _ | e <;>
      rw [hf2] <;> simp

/-- `copy2` does not change any binding outside the destination subtree. -/
theorem copy2_lookup_out (src dest : FPath) (fs fs' : FS) (r : Option Err) (hdest : dest ≠ [])
    (h : copy2 src dest fs = (fs', r)) (q : FPath) (hq : ¬ dest <+: q) :
    FS.lookup fs' q = FS.lookup fs q := by
  rw [copy2] at h
  rcases hsl : FS.lookup fs src with _ | n
  · rw [hsl] at h
    cases h
    rfl
  · cases n with
    | dir =>
      rw [hsl] at h
      cases h
      rfl
    | file c =>
      rw [hsl] at h
      dsimp only at h
      have htp : dest <+: (if FS.isDir fs dest then dest ++ [src.getLastD ""] else dest) := by
        split_ifs
        · exact List.prefix_append dest _
        · exact List.prefix_refl dest
      have hqt : q ≠ (if FS.isDir fs dest then dest ++ [src.getLastD ""] else dest) := by
        intro hcon
        exact hq (hcon ▸ htp)
      have htne : (if FS.isDir fs dest then dest ++ [src.getLastD ""] else dest) ≠ [] := by
        split_ifs
        · simp
        · exact hdest
      rcases hst : FS.lookup fs (if FS.isDir fs dest then dest ++ [src.getLastD ""] else dest)
        with _ | m
      · rw [hst] at h
        injection h with h1 _
        rw [← h1, FS.lookup_setNode _ _ _ _ htne, if_neg hqt]
      · cases m with
        | dir =>
          rw [hst] at h
          cases h
          rfl
        | file c2 =>
          rw [hst] at h
          injection h with h1 _
          rw [← h1, FS.lookup_setNode _ _ _ _ htne, if_neg hqt]

/-- `copyOne` does not change any binding outside its own destination
subtree `static_dest ++ [name]`. -/
theorem copyOne_lookup_out {Ctx : Type} (b : SiteBuilder Ctx) (excl : List String)
    (sd : FPath) (fs fs' : FS) (r : Option Err) (name : String)
    (h : copyOne b excl sd fs name = (fs', r)) (q : FPath)
    (hq : ¬ (sd ++ [name]) <+: q) : FS.lookup fs' q = FS.lookup fs q := by
  rw [copyOne] at h
  split_ifs at h with hm hd hex
  · cases h
    rfl
  · rw [copytree_lookup_out _ _ _ _ _ h q hq]
    exact rmtree_lookup_out _ _ _ hq
  · exact copytree_lookup_out _ _ _ _ _ h q hq
  · exact copy2_lookup_out _ _ _ _ _ (by simp) h q hq

/-- The child-processing loop does not change any binding outside the
destination subtrees of the listed children. -/
theorem goChildren_lookup_out {Ctx : Type} (b : SiteBuilder Ctx) (excl : List String)
    (sd : FPath) (ns : List String) (fs fs' : FS) (r : Option Err)
    (h : goChildren b excl sd ns fs = (fs', r)) (q : FPath)
    (hq : ∀ c ∈ ns, ¬ (sd ++ [c]) <+: q) : FS.lookup fs' q = FS.lookup fs q := by
  induction ns generalizing fs with
  | nil =>
    simp only [goChildren] at h
    cases h
    rfl
  | cons n ns ih =>
    rw [goChildren] at h
    rcases hc : copyOne b excl sd fs n with ⟨fsx, rx⟩
    rw [hc] at h
    cases rx with
    | some e =>
      cases h
      exact copyOne_lookup_out b excl sd fs _ _ n hc q (hq n (List.mem_cons_self n ns))
    | none =>
      rw [ih _ h (fun c hc2 => hq c (List.mem_cons_of_mem n hc2))]
      exact copyOne_lookup_out b excl sd fs _ _ n hc q (hq n (List.mem_cons_self n ns))

/-- Destination subtrees of distinct children are disjoint: no path lies
under both `sd ++ [c]` and `sd ++ [name]` for `c ≠ name`. -/
theorem sibling_not_prefix {sd : FPath} {c name : String} {q : FPath} (hcn : c ≠ name)
    (h1 : (sd ++ [c]) <+: q) (h2 : (sd ++ [name]) <+: q) : False := by
  have hlen : (sd ++ [c]).length = (sd ++ [name]).length := by simp
  have heq : sd ++ [c] = sd ++ [name] := by
    rcases List.prefix_or_prefix_of_prefix h1 h2 with h | h
    · exact h.eq_of_length hlen
    · exact (h.eq_of_length hlen.symm).symm
  have := List.append_cancel_left heq
  injection this with h3 _
  exact hcn h3

/-- For a successfully processed child `name`, the run splits into: a state
`fsPre` at `name`'s turn that agrees with the start state outside `sd` and on
`name`'s own destination subtree, a successful `copyOne` step, and a final
state that agrees with the post-step state on `name`'s destination subtree. -/
theorem goChildren_split {Ctx : Type} (b : SiteBuilder Ctx) (excl : List String)
    (sd : FPath) (ns : List String) (fs fs' : FS)
    (h : goChildren b excl sd ns fs = (fs', none)) (name : String)
    (hmem : name ∈ ns) (hnodup : ns.Nodup) :
    ∃ fsPre fsPost, copyOne b excl sd fsPre name = (fsPost, none) ∧
      (∀ q, ¬ sd <+: q → FS.lookup fsPre q = FS.lookup fs q) ∧
      (∀ q, (sd ++ [name]) <+: q → FS.lookup fsPre q = FS.lookup fs q) ∧
      (∀ q, (sd ++ [name]) <+: q → FS.lookup fs' q = FS.lookup fsPost q) := by
  induction ns generalizing fs with
  | nil => cases hmem
  | cons n ns ih =>
    rw [goChildren] at h
    rcases hc : copyOne b excl sd fs n with ⟨fsx, rx⟩
    rw [hc] at h
    cases rx with
    | some e => cases h
    | none =>
      rcases List.mem_cons.mp hmem with hn | hn
      · subst hn
        refine ⟨fs, fsx, hc, fun q _ => rfl, fun q _ => rfl, fun q hsub => ?_⟩
        refine goChildren_lookup_out b excl sd ns fsx fs' none h q (fun c hcm hpc => ?_)
        have hcn : c ≠ name := by
          intro hcon
          subst hcon
          exact (List.nodup_cons.mp hnodup).1 hcm
        exact sibling_not_prefix hcn hpc hsub
      · have hnn : n ≠ name := by
          intro hcon
          subst hcon
          exact (List.nodup_cons.mp hnodup).1 hn
        rcases ih fsx h hn (List.nodup_cons.mp hnodup).2 with
          ⟨fsPre, fsPost, hco, hout, hsub1, hsub2⟩
        refine ⟨fsPre, fsPost, hco, ?_, ?_, hsub2⟩
        · intro q hqo
          rw [hout q hqo]
          refine copyOne_lookup_out b excl sd fs fsx none n hc q (fun hpc => ?_)
          exact hqo ((List.prefix_append sd [n]).trans hpc)
        · intro q hqs
          rw [hsub1 q hqs]
          refine copyOne_lookup_out b excl sd fs fsx none n hc q (fun hpc => ?_)
          exact sibling_not_prefix hnn hpc hqs

/-- `mkdirGo` only prepends directory entries for listed paths. -/
theorem mkdirGo_extension (l : List FPath) (fs fs' : FS) (r : Option Err)
    (h : mkdirGo l fs = (fs', r)) :
    ∃ ext : FS, fs' = ext ++ fs ∧ ∀ e ∈ ext, e.1 ∈ l ∧ e.2 = Node.dir := by
  induction l generalizing fs with
  | nil =>
    simp only [mkdirGo] at h
    cases h
    exact ⟨[], rfl, by simp⟩
  | cons a l ih =>
    rw [mkdirGo] at h
    rcases hl : FS.lookup fs a with _ | n
    · rw [hl] at h
      rcases ih _ h with ⟨ext, he1, he2⟩
      refine ⟨ext ++ [(a, Node.dir)], by rw [he1, List.append_assoc]; rfl, ?_⟩
      intro e he
      rcases List.mem_append.mp he with he3 | he3
      · exact ⟨List.mem_cons_of_mem a (he2 e he3).1, (he2 e he3).2⟩
      · rcases List.mem_singleton.mp he3 with rfl
        exact ⟨List.mem_cons_self a l, rfl⟩
    · cases n with
      | file c =>
        rw [hl] at h
        cases h
        exact ⟨[], rfl, by simp⟩
      | dir =>
        rw [hl] at h
        rcases ih _ h with ⟨ext, he1, he2⟩
        exact ⟨ext, he1, fun e he => ⟨List.mem_cons_of_mem a (he2 e he).1, (he2 e he).2⟩⟩

/-- Prepended entries that are not direct children of `p` do not change
`p`'s child listing. -/
theorem childNames_append (ext fs : FS) (p : FPath)
    (hext : ∀ e ∈ ext,
      ¬ (p.isPrefixOf e.1 && e.1.length == p.length + 1) = true) :
    childNames (ext ++ fs) p = childNames fs p := by
  rw [childNames, childNames, List.filterMap_append]
  rw [show ext.filterMap (fun e =>
      if p.isPrefixOf e.1 && e.1.length == p.length + 1 then e.1.getLast? else none) = [] by
    rw [List.filterMap_eq_nil_iff]
    intro e he
    rw [if_neg]
    intro hc
    exact hext e he hc]
  rw [List.nil_append]

theorem mem_prefixChain_pre {q p : FPath} (h : q ∈ prefixChain p) : q <+: p := by
  rw [prefixChain, List.mem_map] at h
  rcases h with ⟨i, _, rfl⟩
  exact List.take_prefix _ _

theorem self_mem_prefixChain (p : FPath) (hp : p ≠ []) : p ∈ prefixChain p := by
  have hpos : 0 < p.length := List.length_pos.mpr hp
  rw [prefixChain, List.mem_map]
  refine ⟨p.length - 1, by rw [List.mem_range]; omega, ?_⟩
  rw [show p.length - 1 + 1 = p.length by omega, List.take_length]

/-- With neither of two directories a prefix of the other, no extension of
the second is below the first. -/
theorem not_sd_prefix_static_ext {sd st : FPath} (hsep1 : ¬ st <+: sd)
    (hsep2 : ¬ sd <+: st) (rest : FPath) : ¬ sd <+: st ++ rest := by
  intro hpc
  rcases List.prefix_or_prefix_of_prefix (List.prefix_append st rest) hpc with h | h
  · exact hsep1 h
  · exact hsep2 h

/-- C10.  Whenever the static source directory exists, `CopyStaticAssets`
creates `<buildDir>/static` before examining any child: given the `mkdir`
phase succeeded, the directory exists after the call, whatever the children
were and whether or not the loop later failed. -/
theorem copy_static_assets_creates_static {Ctx : Type} (b : SiteBuilder Ctx)
    (fs fs1 fs' : FS) (excl : List String) (r : Option Err)
    (hsrc : FS.pexists fs b.static_dir = true)
    (hmk : mkdirParents (b.build_dir ++ ["static"]) fs = (fs1, none))
    (hrun : copy_static_assets b fs excl = (fs', r)) :
    FS.isDir fs' (b.build_dir ++ ["static"]) = true := by
  rw [copy_static_assets, if_neg (not_not_intro hsrc)] at hrun
  rw [hmk] at hrun
  dsimp only at hrun
  have hdir1 : FS.lookup fs1 (b.build_dir ++ ["static"]) = some Node.dir :=
    mkdirParents_post _ _ _ hmk _ (self_mem_prefixChain _ (by simp))
  have hpres := goChildren_lookup_out b excl (b.build_dir ++ ["static"]) _ fs1 fs' r hrun
    (b.build_dir ++ ["static"]) (fun c _ hpc => by
      have := hpc.length_le
      simp at this)
  rw [FS.isDir, hpres, hdir1]
  rfl

/-- Witness for C10: a source tree whose every child matches the exclude
pattern `*` still gets `build/static` created. -/
theorem copy_static_assets_creates_static_witness :
    FS.isDir ((["build", "static"], Node.dir) :: (["build"], Node.dir) :: fsW)
      (["build"] ++ ["static"]) = true :=
  copy_static_assets_creates_static BW fsW
    ((["build", "static"], Node.dir) :: (["build"], Node.dir) :: fsW)
    ((["build", "static"], Node.dir) :: (["build"], Node.dir) :: fsW)
    ["*"] none (by decide) (by decide) (by decide)

/-! ## The `*.css` glob pattern -/

theorem fnmatchGo_pat_nil (fuel : Nat) (s : List Char) :
    fnmatchGo fuel [] s = true ↔ s = [] := by
  cases s with
  | nil => cases fuel <;> simp [fnmatchGo]
  | cons c cs => cases fuel <;> simp [fnmatchGo]

theorem fnmatchGo_pat_s (fuel : Nat) (s : List Char) (hf : s.length < fuel) :
    fnmatchGo fuel ['s'] s = true ↔ s = ['s'] := by
  cases s with
  | nil => cases fuel <;> simp [fnmatchGo]
  | cons c cs =>
    cases fuel with
    | zero => omega
    | succ n =>
      rw [show fnmatchGo (n + 1) ['s'] (c :: cs) =
        (decide ('s' = c) && fnmatchGo n [] cs) from rfl]
      rw [Bool.and_eq_true, decide_eq_true_eq, fnmatchGo_pat_nil]
      constructor
      · rintro ⟨rfl, rfl⟩
        rfl
      · intro h
        injection h with h1 h2
        exact ⟨h1.symm, h2⟩

theorem fnmatchGo_pat_ss (fuel : Nat) (s : List Char) (hf : s.length < fuel) :
    fnmatchGo fuel ['s', 's'] s = true ↔ s = ['s', 's'] := by
  cases s with
  | nil => cases fuel <;> simp [fnmatchGo]
  | cons c cs =>
    cases fuel with
    | zero => omega
    | succ n =>
      rw [show fnmatchGo (n + 1) ['s', 's'] (c :: cs) =
        (decide ('s' = c) && fnmatchGo n ['s'] cs) from rfl]
      rw [Bool.and_eq_true, decide_eq_true_eq,
        fnmatchGo_pat_s n cs (by simp at hf; omega)]
      constructor
      · rintro ⟨rfl, rfl⟩
        rfl
      · intro h
        injection h with h1 h2
        exact ⟨h1.symm, h2⟩

theorem fnmatchGo_pat_css (fuel : Nat) (s : List Char) (hf : s.length < fuel) :
    fnmatchGo fuel ['c', 's', 's'] s = true ↔ s = ['c', 's', 's'] := by
  cases s with
  | nil => cases fuel <;> simp [fnmatchGo]
  | cons c cs =>
    cases fuel with
    | zero => omega
    | succ n =>
      rw [show fnmatchGo (n + 1) ['c', 's', 's'] (c :: cs) =
        (decide ('c' = c) && fnmatchGo n ['s', 's'] cs) from rfl]
      rw [Bool.and_eq_true, decide_eq_true_eq,
        fnmatchGo_pat_ss n cs (by simp at hf; omega)]
      constructor
      · rintro ⟨rfl, rfl⟩
        rfl
      · intro h
        injection h with h1 h2
        exact ⟨h1.symm, h2⟩

theorem fnmatchGo_pat_dotcss (fuel : Nat) (s : List Char) (hf : s.length < fuel) :
    fnmatchGo fuel ['.', 'c', 's', 's'] s = true ↔ s = ['.', 'c', 's', 's'] := by
  cases s with
  | nil => cases fuel <;> simp [fnmatchGo]
  | cons c cs =>
    cases fuel with
    | zero => omega
    | succ n =>
      rw [show fnmatchGo (n + 1) ['.', 'c', 's', 's'] (c :: cs) =
        (decide ('.' = c) && fnmatchGo n ['c', 's', 's'] cs) from rfl]
      rw [Bool.and_eq_true, decide_eq_true_eq,
        fnmatchGo_pat_css n cs (by simp at hf; omega)]
      constructor
      · rintro ⟨rfl, rfl⟩
        rfl
      · intro h
        injection h with h1 h2
        exact ⟨h1.symm, h2⟩

/-- The glob `*.css` matches a component exactly when it ends in `.css`. -/
theorem fnmatchGo_star_css (s : List Char) : ∀ (fuel : Nat), s.length + 5 ≤ fuel →
    (fnmatchGo fuel ('*' :: '.' :: 'c' :: 's' :: 's' :: []) s = true ↔
      ('.' :: 'c' :: 's' :: 's' :: []) <:+ s) := by
  induction s with
  | nil =>
    intro fuel hf
    cases fuel with
    | zero => omega
    | succ n =>
      rw [show fnmatchGo (n + 1) ('*' :: '.' :: 'c' :: 's' :: 's' :: []) [] =
        fnmatchGo n ['.', 'c', 's', 's'] [] from rfl]
      rw [fnmatchGo_pat_dotcss n [] (by simp; omega)]
      simp
  | cons c cs ih =>
    intro fuel hf
    cases fuel with
    | zero => omega
    | succ n =>
      rw [show fnmatchGo (n + 1) ('*' :: '.' :: 'c' :: 's' :: 's' :: []) (c :: cs) =
        (fnmatchGo n ['.', 'c', 's', 's'] (c :: cs) ||
          fnmatchGo n ('*' :: '.' :: 'c' :: 's' :: 's' :: []) cs) from rfl]
      rw [Bool.or_eq_true]
      rw [fnmatchGo_pat_dotcss n (c :: cs) (by simp at hf ⊢; omega)]
      rw [ih n (by simp at hf ⊢; omega)]
      rw [List.suffix_cons_iff]
      exact or_congr eq_comm Iff.rfl

theorem fnmatchChars_star_css (s : List Char) :
    fnmatchChars ('*' :: '.' :: 'c' :: 's' :: 's' :: []) s = true ↔
      ('.' :: 'c' :: 's' :: 's' :: []) <:+ s := by
  rw [fnmatchChars]
  exact fnmatchGo_star_css s _ (by simp; omega)

/-- `Path.match` with the single-segment pattern `*.css` tests only the last
component: it holds exactly when that component's name ends in `.css`. -/
theorem pathMatch_star_css (dir : FPath) (name : String) :
    pathMatch (dir ++ [name]) "*.css" = true ↔
      ('.' :: 'c' :: 's' :: 's' :: []) <:+ name.data := by
  have h1 : (dir ++ [name]).reverse = name :: dir.reverse := by simp
  rw [pathMatch, show splitPath "*.css" = ["*.css"] from rfl, h1]
  have h2 : ((["*.css"] : List String).reverse.zip (name :: dir.reverse)) =
    [("*.css", name)] := rfl
  rw [h2]
  have h3 : ((["*.css"] : List String).length ≤ (dir ++ [name]).length) := by simp
  rw [Bool.and_eq_true, Bool.and_eq_true]
  constructor
  · rintro ⟨⟨_, _⟩, hC⟩
    exact (fnmatchChars_star_css name.data).mp (by simpa using hC)
  · intro hs
    refine ⟨⟨rfl, by simp⟩, ?_⟩
    simpa using (fnmatchChars_star_css name.data).mpr hs

/-- Shared setup for the `copy_static_assets` claims: for each listed child,
the run passes through a state `fsPre` that agrees with the initial
filesystem on the whole static source subtree and on the child's destination
subtree, runs `copyOne` successfully from there, and the final state agrees
with the post-`copyOne` state on the child's destination subtree. -/
theorem copy_setup {Ctx : Type} (b : SiteBuilder Ctx) (fs fs1 fs' : FS) (excl : List String)
    (hsrcdir : FS.lookup fs b.static_dir = some Node.dir)
    (hmk : mkdirParents (b.build_dir ++ ["static"]) fs = (fs1, none))
    (hrun : copy_static_assets b fs excl = (fs', none))
    (hnodup : (childNames fs b.static_dir).Nodup)
    (hsep1 : ¬ b.static_dir <+: b.build_dir ++ ["static"])
    (hsep2 : ¬ b.build_dir ++ ["static"] <+: b.static_dir)
    (name : String) (hmem : name ∈ childNames fs b.static_dir) :
    ∃ fsPre fsPost,
      copyOne b excl (b.build_dir ++ ["static"]) fsPre name = (fsPost, none) ∧
      (∀ rest2, FS.lookup fsPre (b.static_dir ++ rest2) =
        FS.lookup fs (b.static_dir ++ rest2)) ∧
      (∀ rest2, FS.lookup fsPre ((b.build_dir ++ ["static"]) ++ name :: rest2) =
        FS.lookup fs ((b.build_dir ++ ["static"]) ++ name :: rest2)) ∧
      (∀ rest2, FS.lookup fs' ((b.build_dir ++ ["static"]) ++ name :: rest2) =
        FS.lookup fsPost ((b.build_dir ++ ["static"]) ++ name :: rest2)) := by
  obtain ⟨ext, hext1, hext2⟩ := mkdirGo_extension _ _ _ _ hmk
  have hchld : childNames fs1 b.static_dir = childNames fs b.static_dir := by
    rw [hext1]
    apply childNames_append
    intro e he hcond
    rw [Bool.and_eq_true] at hcond
    exact hsep1 ((List.isPrefixOf_iff_prefix.mp hcond.1).trans
      (mem_prefixChain_pre (hext2 e he).1))
  rw [copy_static_assets,
    if_neg (not_not_intro (by rw [FS.pexists, hsrcdir]; rfl))] at hrun
  rw [hmk] at hrun
  dsimp only at hrun
  rw [hchld] at hrun
  obtain ⟨fsPre, fsPost, hco, hout, hsubPre, hsubPost⟩ :=
    goChildren_split b excl _ _ fs1 fs' hrun name hmem hnodup
  have hfs1 : ∀ q, (b.static_dir <+: q ∨ ((b.build_dir ++ ["static"]) ++ [name]) <+: q) →
      FS.lookup fs1 q = FS.lookup fs q := by
    intro q hq
    rcases mkdirGo_lookup_or _ _ _ _ hmk q with h | ⟨hmemq, _, _⟩
    · exact h
    · exfalso
      have hqsd := mem_prefixChain_pre hmemq
      rcases hq with hq | hq
      · exact hsep1 (hq.trans hqsd)
      · have h1 := hq.length_le
        have h2 := hqsd.length_le
        simp at h1 h2
        omega
  refine ⟨fsPre, fsPost, hco, ?_, ?_, ?_⟩
  · intro rest2
    rw [hout _ (not_sd_prefix_static_ext hsep1 hsep2 rest2)]
    exact hfs1 _ (Or.inl (List.prefix_append _ _))
  · intro rest2
    have hp : ((b.build_dir ++ ["static"]) ++ [name]) <+:
        (b.build_dir ++ ["static"]) ++ name :: rest2 := ⟨rest2, by simp⟩
    rw [hsubPre _ hp]
    exact hfs1 _ (Or.inr hp)
  · intro rest2
    exact hsubPost _ ⟨rest2, by simp⟩

/-- C2.  `CopyStaticAssets` with exclude pattern `*.css` (on an initially
empty destination area): a direct child whose name ends in `.css` is
excluded — nothing appears at its destination; any other direct child is
copied — a file child's content appears at `<buildDir>/static/<name>`, and a
directory child (e.g. `css/`, whose own name does not end in `.css`) is
copied recursively, every nested path (including nested `.css` files)
reappearing under the destination; the pattern is never applied to nested
entries. -/
theorem copy_static_assets_css_spec {Ctx : Type} (b : SiteBuilder Ctx) (fs fs1 fs' : FS)
    (hsrcdir : FS.lookup fs b.static_dir = some Node.dir)
    (hmk : mkdirParents (b.build_dir ++ ["static"]) fs = (fs1, none))
    (hrun : copy_static_assets b fs ["*.css"] = (fs', none))
    (hnodup : (childNames fs b.static_dir).Nodup)
    (hsep1 : ¬ b.static_dir <+: b.build_dir ++ ["static"])
    (hsep2 : ¬ b.build_dir ++ ["static"] <+: b.static_dir)
    (hclean : ∀ q, (b.build_dir ++ ["static"]) <+: q → q ≠ b.build_dir ++ ["static"] →
      FS.lookup fs q = none) :
    ∀ name ∈ childNames fs b.static_dir,
      (('.' :: 'c' :: 's' :: 's' :: []) <:+ name.data →
        FS.lookup fs' ((b.build_dir ++ ["static"]) ++ [name]) = none) ∧
      (¬ ('.' :: 'c' :: 's' :: 's' :: []) <:+ name.data →
        (∀ c, FS.lookup fs (b.static_dir ++ [name]) = some (Node.file c) →
          FS.lookup fs' ((b.build_dir ++ ["static"]) ++ [name]) = some (Node.file c)) ∧
        (FS.lookup fs (b.static_dir ++ [name]) = some Node.dir →
          ∀ rest, FS.lookup fs' ((b.build_dir ++ ["static"]) ++ name :: rest) =
            FS.lookup fs (b.static_dir ++ name :: rest))) := by
  intro name hmem
  obtain ⟨fsPre, fsPost, hco, hPreSrc, hPreDest, hPost⟩ :=
    copy_setup b fs fs1 fs' ["*.css"] hsrcdir hmk hrun hnodup hsep1 hsep2 name hmem
  have hdest_none : ∀ rest2,
      FS.lookup fs ((b.build_dir ++ ["static"]) ++ name :: rest2) = none := by
    intro rest2
    apply hclean
    · exact ⟨name :: rest2, rfl⟩
    · intro hcon
      have := congrArg List.length hcon
      simp at this
  constructor
  · intro hcss
    have hmatch : ((["*.css"] : List String).any
        fun pat => pathMatch (b.static_dir ++ [name]) pat) = true := by
      show (pathMatch (b.static_dir ++ [name]) "*.css" || false) = true
      rw [Bool.or_false]
      exact (pathMatch_star_css _ _).mpr hcss
    rw [copyOne, if_pos hmatch] at hco
    injection hco with hco1 _
    rw [hPost [], ← hco1, hPreDest [], hdest_none []]
  · intro hcss
    have hmatch : ((["*.css"] : List String).any
        fun pat => pathMatch (b.static_dir ++ [name]) pat) = false := by
      show (pathMatch (b.static_dir ++ [name]) "*.css" || false) = false
      rw [Bool.or_false, Bool.eq_false_iff]
      intro hT
      exact hcss ((pathMatch_star_css _ _).mp hT)
    constructor
    · intro c hfile
      have hitem : FS.lookup fsPre (b.static_dir ++ [name]) = some (Node.file c) := by
        rw [hPreSrc [name], hfile]
      have hdd : FS.lookup fsPre ((b.build_dir ++ ["static"]) ++ [name]) = none := by
        rw [hPreDest [], hdest_none []]
      rw [copyOne, if_neg (by simp [hmatch]),
        if_neg (by rw [FS.isDir, hitem]; simp)] at hco
      rw [copy2, hitem] at hco
      dsimp only at hco
      rw [if_neg (by rw [FS.isDir, hdd]; simp)] at hco
      rw [hdd] at hco
      dsimp only at hco
      injection hco with hco1 _
      rw [hPost [], ← hco1, FS.lookup_setNode _ _ _ _ (by simp)]
      simp
    · intro hdir rest
      have hitem : FS.lookup fsPre (b.static_dir ++ [name]) = some Node.dir := by
        rw [hPreSrc [name], hdir]
      have hdd : FS.lookup fsPre ((b.build_dir ++ ["static"]) ++ [name]) = none := by
        rw [hPreDest [], hdest_none []]
      rw [copyOne, if_neg (by simp [hmatch]), if_pos (by rw [FS.isDir, hitem]; rfl),
        if_neg (by rw [FS.pexists, hdd]; simp)] at hco
      rw [hPost rest,
        show (b.build_dir ++ ["static"]) ++ name :: rest =
          ((b.build_dir ++ ["static"]) ++ [name]) ++ rest from by simp,
        copytree_lookup_in _ _ _ _ (by simp) hco _ (List.prefix_append _ _) (by simp),
        List.drop_left,
        show (b.static_dir ++ [name]) ++ rest = b.static_dir ++ name :: rest from by simp,
        hPreSrc (name :: rest),
        show ((b.build_dir ++ ["static"]) ++ [name]) ++ rest =
          (b.build_dir ++ ["static"]) ++ name :: rest from by simp,
        hPreDest rest, hdest_none rest, Option.or_none]

/-- C7.  For a non-excluded directory child, `CopyStaticAssets` replaces an
already-existing destination directory wholesale: after the call, every path
under `<buildDir>/static/<name>` holds exactly the node at the corresponding
path under the source child — in particular, a stale entry with no source
counterpart is gone (no incremental merge). -/
theorem copy_static_assets_dir_replace {Ctx : Type} (b : SiteBuilder Ctx)
    (fs fs1 fs' : FS) (excl : List String)
    (hsrcdir : FS.lookup fs b.static_dir = some Node.dir)
    (hmk : mkdirParents (b.build_dir ++ ["static"]) fs = (fs1, none))
    (hrun : copy_static_assets b fs excl = (fs', none))
    (hnodup : (childNames fs b.static_dir).Nodup)
    (hsep1 : ¬ b.static_dir <+: b.build_dir ++ ["static"])
    (hsep2 : ¬ b.build_dir ++ ["static"] <+: b.static_dir)
    (name : String) (hmem : name ∈ childNames fs b.static_dir)
    (hnomatch : (excl.any fun pat => pathMatch (b.static_dir ++ [name]) pat) = false)
    (hdir : FS.lookup fs (b.static_dir ++ [name]) = some Node.dir)
    (hdest : (FS.lookup fs ((b.build_dir ++ ["static"]) ++ [name])).isSome = true) :
    ∀ rest, FS.lookup fs' ((b.build_dir ++ ["static"]) ++ name :: rest) =
      FS.lookup fs (b.static_dir ++ name :: rest) := by
  intro rest
  obtain ⟨fsPre, fsPost, hco, hPreSrc, hPreDest, hPost⟩ :=
    copy_setup b fs fs1 fs' excl hsrcdir hmk hrun hnodup hsep1 hsep2 name hmem
  have hitem : FS.lookup fsPre (b.static_dir ++ [name]) = some Node.dir := by
    rw [hPreSrc [name], hdir]
  have hdd : FS.lookup fsPre ((b.build_dir ++ ["static"]) ++ [name]) =
      FS.lookup fs ((b.build_dir ++ ["static"]) ++ [name]) := hPreDest []
  rw [copyOne, if_neg (by simp [hnomatch]), if_pos (by rw [FS.isDir, hitem]; rfl),
    if_pos (by rw [FS.pexists, hdd]; exact hdest)] at hco
  have hnpre : ¬ ((b.build_dir ++ ["static"]) ++ [name]) <+: b.static_dir ++ name :: rest :=
    fun hpc => not_sd_prefix_static_ext hsep1 hsep2 (name :: rest)
      ((List.prefix_append _ [name]).trans hpc)
  rw [hPost rest,
    show (b.build_dir ++ ["static"]) ++ name :: rest =
      ((b.build_dir ++ ["static"]) ++ [name]) ++ rest from by simp,
    copytree_lookup_in _ _ _ _ (by simp) hco _ (List.prefix_append _ _) (by simp),
    List.drop_left,
    show (b.static_dir ++ [name]) ++ rest = b.static_dir ++ name :: rest from by simp,
    rmtree_lookup_out _ _ _ hnpre,
    hPreSrc (name :: rest),
    rmtree_lookup_in _ _ _ (List.prefix_append _ _) (by simp), Option.or_none]

/-- Witness for C2: on `fsW`, the top-level `style.css` is excluded (nothing
at its destination) while the `css/` directory is copied recursively, its
nested `main.css` included. -/
theorem copy_static_assets_css_spec_witness :
    FS.lookup fsW' ((["build"] ++ ["static"]) ++ ["style.css"]) = none ∧
    FS.lookup fsW' ((["build"] ++ ["static"]) ++ "css" :: ["main.css"]) =
      FS.lookup fsW (["src", "static"] ++ "css" :: ["main.css"]) :=
  have h := copy_static_assets_css_spec BW fsW
    ((["build", "static"], Node.dir) :: (["build"], Node.dir) :: fsW) fsW'
    (by decide) (by decide) (by decide) (by decide) (by decide) (by decide)
    (by rintro q ⟨t, rfl⟩ _; rfl)
  ⟨(h "style.css" (by decide)).1 (by decide),
    ((h "css" (by decide)).2 (by decide)).2 (by decide) ["main.css"]⟩

/-- Witness for C7: on `fsW2`, whose `build/static/css` holds a stale
`old.css` and `sub/`, the run replaces the directory: the stale entry's
destination now mirrors the (absent) source entry, and the source's
`main.css` is present. -/
theorem copy_static_assets_dir_replace_witness :
    FS.lookup fsW2' ((["build"] ++ ["static"]) ++ "css" :: ["old.css"]) =
      FS.lookup fsW2 (["src", "static"] ++ "css" :: ["old.css"]) ∧
    FS.lookup fsW2' ((["build"] ++ ["static"]) ++ "css" :: ["main.css"]) =
      FS.lookup fsW2 (["src", "static"] ++ "css" :: ["main.css"]) :=
  have h := copy_static_assets_dir_replace BW fsW2 fsW2 fsW2' ["*.css"]
    (by decide) (by decide) (by decide) (by decide) (by decide) (by decide)
    "css" (by decide) (by decide) (by decide) (by decide)
  ⟨h ["old.css"], h ["main.css"]⟩

/-! ## File hashing -/

set_option maxRecDepth 8000

/-- The model's MD5 agrees with the reference digests of the empty message
and of `"abc"`. -/
theorem md5_test_vectors :
    md5Hex [] = "d41d8cd98f00b204e9800998ecf8427e" ∧
    md5Hex [97, 98, 99] = "900150983cd24fb0d6963f7d28e17f72" := by
  constructor <;> decide

theorem chunksGo_flatten {α : Type} (n : Nat) :
    ∀ (fuel : Nat) (l : List α), l.length ≤ fuel → (chunksGo n fuel l).flatten = l := by
  intro fuel
  induction fuel with
  | zero =>
    intro l hl
    rw [List.length_eq_zero.mp (Nat.le_zero.mp hl)]
    rfl
  | succ m ih =>
    intro l hl
    cases l with
    | nil => rfl
    | cons a l' =>
      rw [chunksGo, List.flatten_cons, ih _ (by simp at hl ⊢; omega),
        List.take_append_drop]

/-- The read loop feeds exactly the file's bytes: chunking then
concatenating is the identity. -/
theorem chunksOfSucc_flatten {α : Type} (n : Nat) (l : List α) :
    (chunksOfSucc n l).flatten = l :=
  chunksGo_flatten n l.length l (Nat.le_refl _)

theorem length_flatMap_byteHex (l : List Nat) : (l.flatMap byteHex).length = 2 * l.length := by
  induction l with
  | nil => rfl
  | cons b l ih =>
    rw [List.flatMap_cons, List.length_append, ih, byteHex]
    simp
    omega

theorem md5Digest_length (msg : List Nat) : (md5Digest msg).length = 16 := by
  rw [md5Digest]
  simp [leBytes]

/-- Every MD5 hex digest has 32 characters. -/
theorem get_file_hash_length (content : List Nat) : (get_file_hash content).length = 32 := by
  rw [get_file_hash, md5Hex]
  show ((md5Digest (chunksOfSucc 8191 content).flatten).flatMap byteHex).length = 32
  rw [length_flatMap_byteHex, md5Digest_length]

/-- Counterexample for C8 as frozen: at the empty file and requested length
33, the short hash is a prefix of the digest but does not have the requested
length (the digest has only 32 characters). -/
theorem get_file_hash_short_counterexample :
    ¬ ((get_file_hash_short ([] : List Nat) 33).data <+:
        (get_file_hash ([] : List Nat)).data ∧
      (get_file_hash_short ([] : List Nat) 33).length = 33) := by
  decide

/-- C8 (amended).  `get_file_hash` hashes exactly the file's bytes (the
chunked read loop digests their concatenation), so it is deterministic:
repeated calls, and calls on distinct paths whose files hold the same bytes,
return the same digest; the digest has 32 characters; and for every
requested length, `get_file_hash_short` returns the prefix of the digest of
length `min requested 32`. -/
theorem get_file_hash_spec (read : FPath → List Nat) (p₁ p₂ : FPath)
    (h : read p₁ = read p₂) :
    get_file_hash_file read p₁ = get_file_hash_file read p₂ ∧
    (∀ content : List Nat, get_file_hash content = md5Hex content) ∧
    (∀ content : List Nat, (get_file_hash content).length = 32) ∧
    (∀ (content : List Nat) (len : Nat),
      (get_file_hash_short content len).data <+: (get_file_hash content).data ∧
      (get_file_hash_short content len).length = min len 32) := by
  refine ⟨by rw [get_file_hash_file, get_file_hash_file, h],
    fun content => by rw [get_file_hash, chunksOfSucc_flatten],
    get_file_hash_length, fun content len => ⟨?_, ?_⟩⟩
  · rw [get_file_hash_short]
    exact List.take_prefix _ _
  · rw [get_file_hash_short]
    show ((get_file_hash content).data.take len).length = min len 32
    rw [List.length_take]
    have h32 : (get_file_hash content).data.length = 32 := get_file_hash_length content
    rw [h32]

/-- Witness for C8 (amended) at the bytes of `"abc"` and two distinct
paths bound to the same content. -/
theorem get_file_hash_spec_witness :
    get_file_hash_file (fun _ => [97, 98, 99]) ["a.css"] =
      get_file_hash_file (fun _ => [97, 98, 99]) ["b.css"] ∧
    (get_file_hash [97, 98, 99]).length = 32 ∧
    (get_file_hash_short [97, 98, 99] 8).length = min 8 32 :=
  have h := get_file_hash_spec (fun _ => [97, 98, 99]) ["a.css"] ["b.css"] rfl
  ⟨h.1, h.2.2.1 [97, 98, 99], (h.2.2.2 [97, 98, 99] 8).2⟩

end Hardboiled
